import Mathlib

/-!
Verification of the Laelia chord-synth engine against its specification.

The definitions below are a shallow embedding of the TypeScript source:

* chord theory, voice ledger, arpeggiator and performance-mode engine from
  src/src/lib/audioEngine.ts (the engine variant with a setInterval-driven
  arpeggiator);
* the strum/harp scheduled-attack machinery from the second engine variant
  (src/unnamed/part_003), embedded in namespace PartThree;
* the input-arbitration logic of src/src/components/Keyboard.tsx.

Conventions: pitches are represented by their MIDI numbers (the source
stores note-name strings such as "C#4"; the conversion midiToNote is
injective, so pitch identity is preserved).  JavaScript Map objects are
modelled as association lists; Map.set updates an existing key in place,
which we model as remove-then-append (the order of entries is never
observed by the embedded logic except through iteration for unions, where
the result is subsequently sorted and deduplicated, so this is faithful).
Wall-clock times and continuous parameters (voicing amounts, bpm) are
rationals; times are in milliseconds (the source uses seconds for audio
times; 0.01 s becomes 10 ms, 0.05 s becomes 50 ms, and so on).
-/

namespace Laelia

/-- NOTE_NAMES table from audioEngine.ts: 12 chromatic names from C. -/
def NOTE_NAMES : List String :=
  "C" :: "C#" :: "D" :: "D#" :: "E" :: "F" ::
    "F#" :: "G" :: "G#" :: "A" :: "A#" :: "B" :: []

/-- The four chord types of the CHORD_INTERVALS table. -/
inductive ChordType
  | maj
  | min
  | dim
  | sus
deriving DecidableEq, Repr

/-- The four chord extensions of the EXTENSION_INTERVALS table. -/
inductive Exten
  | six
  | m7
  | M7
  | nine
deriving DecidableEq, Repr

/-- CHORD_INTERVALS from audioEngine.ts. -/
def CHORD_INTERVALS : ChordType → List Nat
  | .maj => [0, 4, 7]
  | .min => [0, 3, 7]
  | .dim => [0, 3, 6]
  | .sus => [0, 5, 7]

/-- EXTENSION_INTERVALS from audioEngine.ts. -/
def EXTENSION_INTERVALS : Exten → Nat
  | .six => 9
  | .m7 => 10
  | .M7 => 11
  | .nine => 14

/-- JavaScript Array.prototype.sort with comparator (a, b) => a - b:
an ascending sort.  Modelled with insertion sort (stability is irrelevant
for lists of numbers since equal elements are identical). -/
def jsSort (l : List Nat) : List Nat := List.insertionSort (· ≤ ·) l

/-- Math.floor(v * 4) for the chord-voicing amount v in [0,1]. -/
def voicingCount (v : ℚ) : Nat := (Int.floor (v * 4)).toNat

/-- The voicing loop of buildChord: for i in [0, count), if the list is
nonempty, add 12 to the entry at index i mod length.  The list length is
invariant, so the iteration order only matters through the index hit. -/
def applyVoicing (notes : List Nat) : Nat → List Nat
  | 0 => notes
  | n + 1 =>
    let prev := applyVoicing notes n
    if prev.length = 0 then prev
    else prev.set (n % prev.length) (prev.getD (n % prev.length) 0 + 12)

/-- buildChord from audioEngine.ts: base intervals for the chord type,
extension intervals appended in the iteration (insertion) order of the
extensions set, shifted by the root, the voicing bumps applied to that
unsorted list, and only then the list is sorted ascending. -/
def buildChord (ct : ChordType) (exts : List Exten) (v : ℚ) (rootMidi : Nat) :
    List Nat :=
  let intervals := CHORD_INTERVALS ct ++ exts.map EXTENSION_INTERVALS
  let notes := intervals.map (fun i => rootMidi + i)
  jsSort (applyVoicing notes (voicingCount v))

/-- The chord builder as the specification describes it: extensions
appended, the whole list sorted ascending, and the voicing bumps applied
to the sorted list at indices i mod length. -/
def buildChordSpec (ct : ChordType) (exts : List Exten) (v : ℚ)
    (rootMidi : Nat) : List Nat :=
  let intervals := CHORD_INTERVALS ct ++ exts.map EXTENSION_INTERVALS
  let sorted := jsSort (intervals.map (fun i => rootMidi + i))
  applyVoicing sorted (voicingCount v)

/-- Chord-type display suffix from getChordName. -/
def typeName : ChordType → String
  | .maj => ""
  | .min => "m"
  | .dim => "dim"
  | .sus => "sus4"

/-- Extension display suffix from getChordName: maj7 beats 7, then 9,
then 6 are appended. -/
def extName (exts : List Exten) : String :=
  let base := if exts.contains Exten.M7 then "maj7"
    else if exts.contains Exten.m7 then "7" else ""
  let with9 := if exts.contains Exten.nine then base ++ "9" else base
  if exts.contains Exten.six then with9 ++ "6" else with9

/-- getChordName from audioEngine.ts. -/
def getChordName (ct : ChordType) (exts : List Exten) (rootMidi : Nat) :
    String :=
  NOTE_NAMES.getD (rootMidi % 12) "" ++ typeName ct ++ extName exts

/-- The chord name as the specification phrases it: root name, then the
type suffix, then the three extension pieces appended one after another. -/
def chordNameSpec (ct : ChordType) (exts : List Exten) (rootMidi : Nat) :
    String :=
  NOTE_NAMES.getD (rootMidi % 12) ""
    ++ typeName ct
    ++ (if exts.contains Exten.M7 then "maj7"
        else if exts.contains Exten.m7 then "7" else "")
    ++ (if exts.contains Exten.nine then "9" else "")
    ++ (if exts.contains Exten.six then "6" else "")

/-! The performance-mode engine of audioEngine.ts.

Engine state mirrors the mutable fields of the AudioEngine class that the
embedded operations read or write, together with the SynthState record.
The private synth objects are represented by the initialized flag (they
are non-null exactly when init has completed), and the Tone.js audio
context by the ctxRunning flag.  setInterval handles are modelled
explicitly: arpInterval stores the handle the class field holds, while
liveIntervals is the set of interval timers that actually exist in the
JavaScript runtime (clearInterval removes a timer from the runtime only
when called with its handle). -/

/-- The four performance modes. -/
inductive Mode
  | poly
  | strum
  | arp
  | harp
deriving DecidableEq, Repr

/-- One voice ledger entry: the chord pitches and bass pitch produced by
one held key (the activeVoices map values). -/
structure Voice where
  notes : List Nat
  bassNote : Nat
deriving DecidableEq, Repr

/-- A live setInterval timer: its handle, the time its next callback
fires, and its repeat period (milliseconds). -/
structure Timer where
  id : Nat
  nextAt : ℚ
  period : ℚ
deriving DecidableEq, Repr

/-- Calls made to the tone generator, with their scheduled times in
milliseconds: polyphonic synth attack and release by pitch, the release
of every synth voice at once, and the monophonic bass attack/release. -/
inductive AudioEvent
  | attack (pitch : Nat) (atMs : ℚ)
  | release (pitch : Nat) (atMs : ℚ)
  | releaseAllSynth (atMs : ℚ)
  | bassAttack (pitch : Nat) (atMs : ℚ)
  | bassRelease (atMs : ℚ)
deriving DecidableEq, Repr

/-- Whether an audio event is a polyphonic synth attack. -/
def AudioEvent.isAttack : AudioEvent → Bool
  | .attack _ _ => true
  | _ => false

/-- Engine state: SynthState fields plus the private mutable fields of
the AudioEngine class that the embedded operations touch. -/
structure EngineState where
  initialized : Bool
  ctxRunning : Bool
  performanceMode : Mode
  key : Nat
  bpm : ℚ
  chordVoicing : ℚ
  bassVoicing : ℚ
  chordType : ChordType
  extensions : List Exten
  currentNote : Int
  activeVoices : List (Nat × Voice)
  activeNotesModes : List (Nat × Mode)
  currentChordNotes : List Nat
  currentBassNote : Option Nat
  arpSequence : List Nat
  arpIndex : Nat
  currentArpNote : Option Nat
  arpTransitionQueue : List Nat
  arpInterval : Option Nat
  liveIntervals : List Timer
  nextTimerId : Nat
  scheduledAttacks : List (Nat × ℚ)
deriving DecidableEq, Repr

/-- isReady from audioEngine.ts: initialized and audio context running
(synth and bassSynth are non-null exactly when initialized). -/
def isReady (s : EngineState) : Bool := s.initialized && s.ctxRunning

/-- Association-list lookup (JavaScript Map.get). -/
def alistGet (l : List (Nat × Voice)) (k : Nat) : Option Voice :=
  (l.find? (fun p => p.1 == k)).map (fun p => p.2)

/-- Association-list removal (JavaScript Map.delete). -/
def alistRemove (l : List (Nat × Voice)) (k : Nat) : List (Nat × Voice) :=
  l.filter (fun p => p.1 != k)

/-- JavaScript Map.set modelled as remove-then-append; entry order is
only observed through unions that are subsequently sorted, so the
position of an updated entry is immaterial. -/
def alistSet (l : List (Nat × Voice)) (k : Nat) (v : Voice) :
    List (Nat × Voice) :=
  alistRemove l k ++ [(k, v)]

/-- Map.set for the activeNotesModes map (pitch to mode). -/
def modesSet (l : List (Nat × Mode)) (k : Nat) (m : Mode) :
    List (Nat × Mode) :=
  l.filter (fun p => p.1 != k) ++ [(k, m)]

/-- Array.from(new Set(...)) keeping first occurrences. -/
def jsDedup (l : List Nat) : List Nat :=
  l.foldl (fun acc x => if acc.contains x then acc else acc ++ [x]) []

/-- The flat list of every active voice's chord notes, in map iteration
order (Array.from(this.activeVoices.values()).flatMap(v => v.notes)). -/
def allVoiceNotes (voices : List (Nat × Voice)) : List Nat :=
  (voices.map (fun p => p.2.notes)).flatten

/-- getAllArpNotes from audioEngine.ts: the deduplicated union of all
active voices' chord notes, sorted ascending by pitch. -/
def getAllArpNotes (voices : List (Nat × Voice)) : List Nat :=
  jsSort (jsDedup (allVoiceNotes voices))

/-- Absolute distance between two MIDI numbers. -/
def midiDist (a b : Nat) : Nat := max a b - min a b

/-- The value newSequence[nearestIdx] selected by the nearest-note scan
of buildArpTransition: the first element minimizing the distance to the
current pitch (the scan starts with distance Infinity, so the first
element always replaces the initial state; strict improvement keeps the
earliest minimizer). -/
def nearestTarget (cur : Nat) : List Nat → Nat
  | [] => cur
  | x :: xs =>
    xs.foldl (fun best n => if midiDist n cur < midiDist best cur then n else best) x

/-- buildArpTransition from audioEngine.ts: walk from the currently
sounding pitch to the nearest entry of the new sequence, taking the new
sequence pitches strictly above current and at most the target when
going up, and those at least the target and strictly below current,
reversed, when going down. -/
def buildArpTransition (cur : Nat) (newSeq : List Nat) : List Nat :=
  match newSeq with
  | [] => []
  | x :: xs =>
    let target := nearestTarget cur (x :: xs)
    if cur < target then
      (x :: xs).filter (fun n => decide (cur < n) && decide (n ≤ target))
    else if target < cur then
      ((x :: xs).filter (fun n => decide (target ≤ n) && decide (n < cur))).reverse
    else []

/-- updateArpSequence from audioEngine.ts. -/
def updateArpSequence (s : EngineState) : EngineState :=
  if s.performanceMode ≠ Mode.arp then s
  else
    let newSeq := getAllArpNotes s.activeVoices
    if s.arpInterval = none ∨ s.arpSequence = [] then
      { s with arpSequence := newSeq, arpIndex := 0 }
    else
      let s1 :=
        match s.currentArpNote with
        | some cur =>
          if newSeq ≠ [] then
            { s with arpTransitionQueue := buildArpTransition cur newSeq }
          else s
        | none => s
      { s1 with arpSequence := newSeq }

/-- releaseVoice from audioEngine.ts: releases every note of the key's
voice entry (no cross-voice filtering appears in the source), removes
the entry and its activeNotesModes records, refreshes the arp sequence
when in arp mode with keys remaining, and refreshes the display list. -/
def releaseVoice (s : EngineState) (k : Nat) (now : ℚ) :
    EngineState × List AudioEvent :=
  match alistGet s.activeVoices k with
  | none => (s, [])
  | some voice =>
    let ev := voice.notes.map (fun n => AudioEvent.release n now)
    let s1 := { s with
      activeVoices := alistRemove s.activeVoices k,
      activeNotesModes :=
        s.activeNotesModes.filter (fun p => !(voice.notes.contains p.1)) }
    let s2 :=
      if s1.performanceMode = Mode.arp ∧ s1.activeVoices ≠ [] then
        updateArpSequence s1
      else s1
    ({ s2 with currentChordNotes := allVoiceNotes s2.activeVoices }, ev)

/-- stopArp from audioEngine.ts: clearInterval on the stored handle (and
only that handle), release of the currently sounding arp note, and reset
of the arp sequencing state. -/
def stopArp (s : EngineState) (now : ℚ) : EngineState × List AudioEvent :=
  let s1 :=
    match s.arpInterval with
    | some tid =>
      { s with
        liveIntervals := s.liveIntervals.filter (fun t => t.id != tid),
        arpInterval := none }
    | none => s
  let rel :=
    match s1.currentArpNote with
    | some n => if s1.initialized then some n else none
    | none => none
  let s2 :=
    match rel with
    | some _ => { s1 with currentArpNote := none }
    | none => s1
  ({ s2 with arpIndex := 0, arpSequence := [], arpTransitionQueue := [] },
   match rel with
   | some n => [AudioEvent.release n now]
   | none => [])

/-- setPerformanceMode from audioEngine.ts: record the new mode, then
stopArp. -/
def setPerformanceMode (s : EngineState) (m : Mode) (now : ℚ) :
    EngineState × List AudioEvent :=
  stopArp { s with performanceMode := m } now

/-- The arpeggiator tick interval in milliseconds: 60000 / bpm / 2. -/
def arpIntervalMs (bpm : ℚ) : ℚ := 60000 / bpm / 2

/-- The body of the setInterval callback in playNote (arp mode): release
the sounding note, then play the transition queue head if any, otherwise
advance round-robin through the sequence.  The parameter fireAt is the
wall-clock time the callback runs; audio events are scheduled 10 ms
later (Tone.now() + 0.01). -/
def arpTick (s : EngineState) (fireAt : ℚ) : EngineState × List AudioEvent :=
  if !s.initialized then (s, [])
  else
    let t := fireAt + 10
    let evRel :=
      match s.currentArpNote with
      | some n => [AudioEvent.release n t]
      | none => []
    match s.arpTransitionQueue with
    | n :: rest =>
      ({ s with currentArpNote := some n, arpTransitionQueue := rest },
       evRel ++ [AudioEvent.attack n t])
    | [] =>
      if s.arpSequence ≠ [] then
        let i := (s.arpIndex + 1) % s.arpSequence.length
        let n := s.arpSequence.getD i 0
        ({ s with arpIndex := i, currentArpNote := some n },
         evRel ++ [AudioEvent.attack n t])
      else (s, evRel)

/-- Firing a live interval timer: run the arp tick at its due time and
re-arm the timer one period later (setInterval repeats). -/
def fireTimer (s : EngineState) (t : Timer) : EngineState × List AudioEvent :=
  let (s1, ev) := arpTick s t.nextAt
  ({ s1 with
     liveIntervals := s1.liveIntervals.map
       (fun u => if u.id = t.id then { u with nextAt := u.nextAt + u.period } else u) },
   ev)

/-- The timer-driven steps the JavaScript runtime can take: a live
interval timer may fire.  A tick can only happen for a timer that is in
liveIntervals. -/
inductive TickStep : EngineState → EngineState → List AudioEvent → Prop
  | fire (s : EngineState) (t : Timer) (hmem : t ∈ s.liveIntervals) :
      TickStep s (fireTimer s t).1 (fireTimer s t).2

/-- The bass octave 2 + Math.floor(bassVoicing * 2) of playNote. -/
def bassOctave (bv : ℚ) : Nat := 2 + (Int.floor (bv * 2)).toNat

/-- playNote from audioEngine.ts.  Returns the chord display name, the
new engine state, and the tone-generator calls in issue order.  The
parameter now is the wall-clock call time in milliseconds; attack times
use t0 = now + 10 (Tone.now() + 0.01). -/
def playNote (s : EngineState) (k : Nat) (now : ℚ) :
    String × EngineState × List AudioEvent :=
  if !(isReady s) then ("", s, [])
  else
    let (s1, ev1) := releaseVoice s k now
    let t0 := now + 10
    let s2 := { s1 with currentNote := Int.ofNat k }
    let rootMidi := 48 + k + s2.key
    let chordMidi := buildChord s2.chordType s2.extensions s2.chordVoicing rootMidi
    let s3 := { s2 with
      activeNotesModes :=
        chordMidi.foldl (fun m n => modesSet m n s2.performanceMode)
          s2.activeNotesModes }
    let bassNote := (bassOctave s3.bassVoicing + 1) * 12 + rootMidi % 12
    let evBass :=
      (match s3.currentBassNote with
       | some _ => [AudioEvent.bassRelease t0]
       | none => []) ++ [AudioEvent.bassAttack bassNote t0]
    let s4 := { s3 with currentBassNote := some bassNote }
    match s4.performanceMode with
    | Mode.poly =>
      let ev := chordMidi.map (fun n => AudioEvent.attack n t0)
      let s5 := { s4 with activeVoices := alistSet s4.activeVoices k ⟨chordMidi, bassNote⟩ }
      (getChordName s5.chordType s5.extensions rootMidi,
       { s5 with currentChordNotes := allVoiceNotes s5.activeVoices },
       ev1 ++ evBass ++ ev)
    | Mode.strum =>
      let ev := chordMidi.enum.map (fun p => AudioEvent.attack p.2 (t0 + 50 * p.1))
      let s5 := { s4 with activeVoices := alistSet s4.activeVoices k ⟨chordMidi, bassNote⟩ }
      (getChordName s5.chordType s5.extensions rootMidi,
       { s5 with currentChordNotes := allVoiceNotes s5.activeVoices },
       ev1 ++ evBass ++ ev)
    | Mode.harp =>
      let tracked := chordMidi ++ chordMidi.map (fun n => n + 12)
      let s5 := { s4 with
        activeNotesModes :=
          (chordMidi.map (fun n => n + 12)).foldl
            (fun m n => modesSet m n Mode.harp) s4.activeNotesModes }
      let ev := tracked.enum.map (fun p => AudioEvent.attack p.2 (t0 + 30 * p.1))
      let s6 := { s5 with activeVoices := alistSet s5.activeVoices k ⟨tracked, bassNote⟩ }
      (getChordName s6.chordType s6.extensions rootMidi,
       { s6 with currentChordNotes := allVoiceNotes s6.activeVoices },
       ev1 ++ evBass ++ ev)
    | Mode.arp =>
      let sA := { s4 with activeVoices := alistSet s4.activeVoices k ⟨chordMidi, bassNote⟩ }
      if sA.activeVoices.length = 1 then
        let seq := getAllArpNotes sA.activeVoices
        let sB := { sA with arpSequence := seq, arpIndex := 0 }
        let (sC, evA) :=
          match seq with
          | [] => (sB, [])
          | n :: _ => ({ sB with currentArpNote := some n },
                       [AudioEvent.attack n t0])
        let d := arpIntervalMs sC.bpm
        let tm : Timer := ⟨sC.nextTimerId, now + d, d⟩
        let sD := { sC with
          liveIntervals := sC.liveIntervals ++ [tm],
          arpInterval := some tm.id,
          nextTimerId := sC.nextTimerId + 1 }
        (getChordName sD.chordType sD.extensions rootMidi,
         { sD with currentChordNotes := allVoiceNotes sD.activeVoices },
         ev1 ++ evBass ++ evA)
      else
        let sB := updateArpSequence sA
        (getChordName sB.chordType sB.extensions rootMidi,
         { sB with currentChordNotes := allVoiceNotes sB.activeVoices },
         ev1 ++ evBass)

/-- releaseKey from audioEngine.ts: release the key's voice; when that
was the last one, stop the arpeggiator and the bass and reset the
current-note display. -/
def releaseKey (s : EngineState) (k : Nat) (now : ℚ) :
    EngineState × List AudioEvent :=
  if !s.initialized then (s, [])
  else
    match alistGet s.activeVoices k with
    | none => (s, [])
    | some _ =>
      let (s1, ev1) := releaseVoice s k now
      if s1.activeVoices = [] then
        let (s2, ev2) := stopArp s1 now
        ({ s2 with currentBassNote := none, currentNote := -1 },
         ev1 ++ ev2 ++ [AudioEvent.bassRelease now])
      else (s1, ev1)

/-- releaseNote from audioEngine.ts (full release of everything). -/
def releaseNote (s : EngineState) (now : ℚ) : EngineState × List AudioEvent :=
  if !s.initialized then (s, [])
  else
    let (s1, ev1) := stopArp s now
    ({ s1 with
       currentBassNote := none,
       currentChordNotes := [],
       activeNotesModes := [],
       activeVoices := [],
       currentNote := -1 },
     ev1 ++ [AudioEvent.releaseAllSynth now, AudioEvent.bassRelease now])

/-- dispose from audioEngine.ts (backend teardown). -/
def dispose (s : EngineState) (now : ℚ) : EngineState × List AudioEvent :=
  let (s1, ev1) := stopArp s now
  ({ s1 with
     activeVoices := [],
     currentChordNotes := [],
     activeNotesModes := [],
     currentNote := -1,
     initialized := false },
   ev1)

/-! The second engine variant (src/unnamed/part_003).  Its chord theory,
voice ledger and arp transition logic are textually identical to the
first variant, so those definitions are shared.  It differs in playNote
(non-arp modes first cancel all pending staggered attacks and release
every sounding note; strum and harp stagger follow-up attacks through
cancelable setTimeout handles recorded in scheduledAttacks) and in
releaseKey (releasing the last key also cancels pending staggered
attacks).  Times: this variant schedules at t0 = now, without the 10 ms
offset.  The scheduledAttacks field holds (pitch, fire-time) pairs. -/

namespace PartThree

/-- playNote from part_003. -/
def playNote (s : EngineState) (k : Nat) (now : ℚ) :
    String × EngineState × List AudioEvent :=
  if !(isReady s) then ("", s, [])
  else
    let (s1, ev1) :=
      if s.performanceMode ≠ Mode.arp then
        ({ s with scheduledAttacks := [], activeNotesModes := [], activeVoices := [] },
         [AudioEvent.releaseAllSynth now])
      else releaseVoice s k now
    let t0 := now
    let s2 := { s1 with currentNote := Int.ofNat k }
    let rootMidi := 48 + k + s2.key
    let chordMidi := buildChord s2.chordType s2.extensions s2.chordVoicing rootMidi
    let s3 := { s2 with
      activeNotesModes :=
        chordMidi.foldl (fun m n => modesSet m n s2.performanceMode)
          s2.activeNotesModes }
    let bassNote := (bassOctave s3.bassVoicing + 1) * 12 + rootMidi % 12
    let evBass :=
      (match s3.currentBassNote with
       | some _ => [AudioEvent.bassRelease t0]
       | none => []) ++ [AudioEvent.bassAttack bassNote t0]
    let s4 := { s3 with currentBassNote := some bassNote }
    match s4.performanceMode with
    | Mode.poly =>
      let ev := chordMidi.map (fun n => AudioEvent.attack n t0)
      let s5 := { s4 with activeVoices := alistSet s4.activeVoices k ⟨chordMidi, bassNote⟩ }
      (getChordName s5.chordType s5.extensions rootMidi,
       { s5 with currentChordNotes := allVoiceNotes s5.activeVoices },
       ev1 ++ evBass ++ ev)
    | Mode.strum =>
      let ev := [AudioEvent.attack (chordMidi.headD 0) t0]
      let sched := (chordMidi.drop 1).enum.map
        (fun p => (p.2, now + 50 * ((p.1 : ℚ) + 1)))
      let s5 := { s4 with
        scheduledAttacks := s4.scheduledAttacks ++ sched,
        activeVoices := alistSet s4.activeVoices k ⟨chordMidi, bassNote⟩ }
      (getChordName s5.chordType s5.extensions rootMidi,
       { s5 with currentChordNotes := allVoiceNotes s5.activeVoices },
       ev1 ++ evBass ++ ev)
    | Mode.harp =>
      let tracked := chordMidi ++ chordMidi.map (fun n => n + 12)
      let s5 := { s4 with
        activeNotesModes :=
          (chordMidi.map (fun n => n + 12)).foldl
            (fun m n => modesSet m n Mode.harp) s4.activeNotesModes }
      let ev := [AudioEvent.attack (tracked.headD 0) t0]
      let sched := (tracked.drop 1).enum.map
        (fun p => (p.2, now + 30 * ((p.1 : ℚ) + 1)))
      let s6 := { s5 with
        scheduledAttacks := s5.scheduledAttacks ++ sched,
        activeVoices := alistSet s5.activeVoices k ⟨tracked, bassNote⟩ }
      (getChordName s6.chordType s6.extensions rootMidi,
       { s6 with currentChordNotes := allVoiceNotes s6.activeVoices },
       ev1 ++ evBass ++ ev)
    | Mode.arp =>
      let sA := { s4 with activeVoices := alistSet s4.activeVoices k ⟨chordMidi, bassNote⟩ }
      if sA.activeVoices.length = 1 then
        let seq := getAllArpNotes sA.activeVoices
        let sB := { sA with arpSequence := seq, arpIndex := 0 }
        let (sC, evA) :=
          match seq with
          | [] => (sB, [])
          | n :: _ => ({ sB with currentArpNote := some n },
                       [AudioEvent.attack n t0])
        let d := arpIntervalMs sC.bpm
        let tm : Timer := ⟨sC.nextTimerId, now + d, d⟩
        let sD := { sC with
          liveIntervals := sC.liveIntervals ++ [tm],
          arpInterval := some tm.id,
          nextTimerId := sC.nextTimerId + 1 }
        (getChordName sD.chordType sD.extensions rootMidi,
         { sD with currentChordNotes := allVoiceNotes sD.activeVoices },
         ev1 ++ evBass ++ evA)
      else
        let sB := updateArpSequence sA
        (getChordName sB.chordType sB.extensions rootMidi,
         { sB with currentChordNotes := allVoiceNotes sB.activeVoices },
         ev1 ++ evBass)

/-- releaseKey from part_003: on the last voice it also cancels every
pending staggered attack and releases every synth voice. -/
def releaseKey (s : EngineState) (k : Nat) (now : ℚ) :
    EngineState × List AudioEvent :=
  if !s.initialized then (s, [])
  else
    match alistGet s.activeVoices k with
    | none => (s, [])
    | some _ =>
      let (s1, ev1) := releaseVoice s k now
      if s1.activeVoices = [] then
        let (s2, ev2) := stopArp s1 now
        ({ s2 with
           scheduledAttacks := [],
           currentBassNote := none,
           currentChordNotes := [],
           activeNotesModes := [],
           currentNote := -1 },
         ev1 ++ ev2 ++ [AudioEvent.releaseAllSynth now, AudioEvent.bassRelease now])
      else (s1, ev1)

/-- A pending staggered attack fires: the runtime may run any timeout
recorded in scheduledAttacks, emitting its attack at the scheduled time;
a cancelled (removed) entry can never fire. -/
inductive SchedStep : EngineState → EngineState → List AudioEvent → Prop
  | fire (s : EngineState) (e : Nat × ℚ) (hmem : e ∈ s.scheduledAttacks) :
      SchedStep s { s with scheduledAttacks := s.scheduledAttacks.erase e }
        [AudioEvent.attack e.1 e.2]

end PartThree

/-! Input arbitration from src/src/components/Keyboard.tsx.

Pointer claims live in activePointersRef (pointerId to key), keyboard
claims in keyboardKeysRef (a set of keys).  The model processes one DOM
event at a time and returns the onNoteOn / onNoteOff calls made, in
order.  Hit-testing is abstracted: a pointer event carries the key that
getNoteFromPoint resolved (none when the point is outside every key). -/

/-- The two input-claim stores of the Keyboard component. -/
structure InputState where
  pointers : List (Nat × Nat)
  kbd : List Nat
deriving DecidableEq, Repr

/-- Calls the Keyboard component makes into the synth layer. -/
inductive KeyEvent
  | noteOn (k : Nat)
  | noteOff (k : Nat)
deriving DecidableEq, Repr

/-- DOM events reaching the Keyboard handlers.  Pointer events carry the
hit-tested key.  keyDown covers handleKeyDown for a mapped, non-repeat
key code (unmapped codes and repeats fall through to no-ops, which is
the same as not delivering an event). -/
inductive InEvent
  | pointerDown (pid : Nat) (pos : Option Nat)
  | pointerMove (pid : Nat) (pos : Option Nat)
  | pointerUp (pid : Nat)
  | keyDown (k : Nat)
  | keyUp (k : Nat)
deriving DecidableEq, Repr

/-- activePointersRef.get. -/
def lookupP (l : List (Nat × Nat)) (pid : Nat) : Option Nat :=
  (l.find? (fun p => p.1 == pid)).map (fun p => p.2)

/-- activePointersRef.delete. -/
def removeP (l : List (Nat × Nat)) (pid : Nat) : List (Nat × Nat) :=
  l.filter (fun p => p.1 != pid)

/-- activePointersRef.set (remove-then-append; entry order is never
observed by the component logic). -/
def setP (l : List (Nat × Nat)) (pid n : Nat) : List (Nat × Nat) :=
  removeP l pid ++ [(pid, n)]

/-- isNoteHeldByAnySource from Keyboard.tsx: some pointer holds the
note, or the keyboard set contains it. -/
def heldByAnySource (st : InputState) (k : Nat) : Bool :=
  st.pointers.any (fun p => p.2 == k) || st.kbd.contains k

/-- One step of the Keyboard event handlers.  The ready flag models
audioEngine.isReady(), which gates pointer-down and key-down (but not
the release paths). -/
def inputStep (ready : Bool) (st : InputState) :
    InEvent → InputState × List KeyEvent
  | .pointerDown pid pos =>
    if !ready then (st, [])
    else
      match pos with
      | none => (st, [])
      | some n =>
        ({ st with pointers := setP st.pointers pid n }, [KeyEvent.noteOn n])
  | .pointerMove pid pos =>
    match lookupP st.pointers pid with
    | none => (st, [])
    | some cur =>
      if pos = some cur then (st, [])
      else
        let st1 : InputState :=
          match pos with
          | some n => { st with pointers := setP st.pointers pid n }
          | none => { st with pointers := removeP st.pointers pid }
        let evOn :=
          match pos with
          | some n => [KeyEvent.noteOn n]
          | none => []
        let evOff :=
          if heldByAnySource st1 cur then [] else [KeyEvent.noteOff cur]
        (st1, evOn ++ evOff)
  | .pointerUp pid =>
    match lookupP st.pointers pid with
    | none => (st, [])
    | some cur =>
      let st1 := { st with pointers := removeP st.pointers pid }
      (st1, if heldByAnySource st1 cur then [] else [KeyEvent.noteOff cur])
  | .keyDown k =>
    if !ready then (st, [])
    else if st.kbd.contains k then (st, [])
    else ({ st with kbd := st.kbd ++ [k] }, [KeyEvent.noteOn k])
  | .keyUp k =>
    if st.kbd.contains k then
      let st1 := { st with kbd := st.kbd.filter (fun j => j != k) }
      (st1, if heldByAnySource st1 k then [] else [KeyEvent.noteOff k])
    else (st, [])

/-- Well-formedness of an event against a state: the browser only
delivers pointerdown for a pointer that is not already down (a pointer
id appears in activePointersRef only between its down and up events). -/
def eventWF (st : InputState) : InEvent → Prop
  | .pointerDown pid _ => lookupP st.pointers pid = none
  | _ => True

/-! Concrete states used by the closed theorems below. -/

/-- The engine state right after construction (the initial field values
of the AudioEngine class and its SynthState). -/
def initState : EngineState :=
  { initialized := false
    ctxRunning := false
    performanceMode := Mode.poly
    key := 0
    bpm := 120
    chordVoicing := 0
    bassVoicing := 0
    chordType := ChordType.maj
    extensions := []
    currentNote := -1
    activeVoices := []
    activeNotesModes := []
    currentChordNotes := []
    currentBassNote := none
    arpSequence := []
    arpIndex := 0
    currentArpNote := none
    arpTransitionQueue := []
    arpInterval := none
    liveIntervals := []
    nextTimerId := 0
    scheduledAttacks := [] }

/-- The initial state once init has succeeded and the context runs. -/
def readyState : EngineState := { initState with initialized := true, ctxRunning := true }

/-- Ready state in arp mode. -/
def readyArpState : EngineState := { readyState with performanceMode := Mode.arp }

/-- Ready state in strum mode. -/
def readyStrumState : EngineState := { readyState with performanceMode := Mode.strum }

/-- A ready poly-mode state holding two keys whose chords share pitch 52
(key 0 sounds the C-major chord 48, 52, 55 and key 4 the E-major chord
52, 56, 59, as produced by default settings with key presses 0 and 4). -/
def sharedPitchState : EngineState :=
  { readyState with
    activeVoices := [(0, ⟨[48, 52, 55], 36⟩), (4, ⟨[52, 56, 59], 40⟩)],
    activeNotesModes :=
      [(48, Mode.poly), (52, Mode.poly), (55, Mode.poly),
       (56, Mode.poly), (59, Mode.poly)],
    currentChordNotes := [48, 52, 55, 52, 56, 59],
    currentBassNote := some 40,
    currentNote := 4 }

/-- State reached by playNote readyArpState 0 0: key 0 held in arp mode,
sequence C major, first note sounding, one interval timer armed. -/
def arpS1 : EngineState :=
  { readyArpState with
    currentNote := 0
    activeVoices := [(0, ⟨[48, 52, 55], 36⟩)]
    activeNotesModes := [(48, Mode.arp), (52, Mode.arp), (55, Mode.arp)]
    currentChordNotes := [48, 52, 55]
    currentBassNote := some 36
    arpSequence := [48, 52, 55]
    arpIndex := 0
    currentArpNote := some 48
    arpTransitionQueue := []
    arpInterval := some 0
    liveIntervals := [⟨0, arpIntervalMs 120, arpIntervalMs 120⟩]
    nextTimerId := 1 }

/-- State reached from arpS1 by playNote arpS1 1 1000 (second, disjoint
key): both keys held, sequence recomputed to the six-note union. -/
def arpS2 : EngineState :=
  { arpS1 with
    currentNote := 1
    activeVoices := [(0, ⟨[48, 52, 55], 36⟩), (1, ⟨[49, 53, 56], 37⟩)]
    activeNotesModes :=
      [(48, Mode.arp), (52, Mode.arp), (55, Mode.arp),
       (49, Mode.arp), (53, Mode.arp), (56, Mode.arp)]
    currentChordNotes := [48, 52, 55, 49, 53, 56]
    currentBassNote := some 37
    arpSequence := [48, 49, 52, 53, 55, 56]
    arpTransitionQueue := [] }

/-- State reached from arpS1 by playNote arpS1 0 1000 (retriggering the
only held key, e.g. a pointer tap on a key already held through the
physical keyboard): the arp restarts as a first key and arms a second
interval timer while the first timer handle has been overwritten. -/
def arpRetrigState : EngineState :=
  { arpS1 with
    currentBassNote := some 36
    liveIntervals :=
      [⟨0, arpIntervalMs 120, arpIntervalMs 120⟩,
       ⟨1, 1000 + arpIntervalMs 120, arpIntervalMs 120⟩]
    arpInterval := some 1
    nextTimerId := 2 }

/-- State after setPerformanceMode arpRetrigState Mode.poly 2000: the
stored interval handle is cleared, but the leaked first timer survives. -/
def leakState : EngineState :=
  { arpRetrigState with
    performanceMode := Mode.poly
    arpInterval := none
    currentArpNote := none
    arpIndex := 0
    arpSequence := []
    arpTransitionQueue := []
    liveIntervals := [⟨0, arpIntervalMs 120, arpIntervalMs 120⟩] }

/-- State reached by PartThree.playNote readyStrumState 0 0: key 0 held
in strum mode, first chord note attacked, two staggered attacks pending. -/
def strumS1 : EngineState :=
  { readyStrumState with
    currentNote := 0
    activeVoices := [(0, ⟨[48, 52, 55], 36⟩)]
    activeNotesModes := [(48, Mode.strum), (52, Mode.strum), (55, Mode.strum)]
    currentChordNotes := [48, 52, 55]
    currentBassNote := some 36
    scheduledAttacks := [(52, 50), (55, 100)] }

end Laelia

namespace Laelia

/-! Helper lemmas. -/

lemma voicingCount_one : voicingCount 1 = 4 := by
  have h : ((1:ℚ) * 4) = ((4:ℤ) : ℚ) := by norm_num
  simp [voicingCount, h, Int.floor_intCast]

lemma voicingCount_zero : voicingCount 0 = 0 := by
  have h : ((0:ℚ) * 4) = ((0:ℤ) : ℚ) := by norm_num
  simp [voicingCount, h, Int.floor_intCast]

lemma bassOctave_zero : bassOctave 0 = 2 := by
  have h : ((0:ℚ) * 2) = ((0:ℤ) : ℚ) := by norm_num
  simp [bassOctave, h, Int.floor_intCast]

lemma applyVoicing_length (notes : List Nat) (n : Nat) :
    (applyVoicing notes n).length = notes.length := by
  induction n with
  | zero => rfl
  | succ n ih =>
    simp only [applyVoicing]
    split
    · exact ih
    · simpa using ih

lemma jsSort_sorted (l : List Nat) : (jsSort l).Sorted (· ≤ ·) :=
  List.sorted_insertionSort (· ≤ ·) l

lemma jsSort_perm (l : List Nat) : (jsSort l).Perm l :=
  List.perm_insertionSort (· ≤ ·) l

lemma CHORD_INTERVALS_length (ct : ChordType) :
    (CHORD_INTERVALS ct).length = 3 := by
  cases ct <;> rfl

lemma buildChord_root48 : buildChord ChordType.maj [] 0 48 = [48, 52, 55] := by
  simp only [buildChord, voicingCount_zero]
  decide

lemma buildChord_root49 : buildChord ChordType.maj [] 0 49 = [49, 53, 56] := by
  simp only [buildChord, voicingCount_zero]
  decide

lemma updateArpSequence_activeVoices (s : EngineState) :
    (updateArpSequence s).activeVoices = s.activeVoices := by
  unfold updateArpSequence
  repeat' split
  all_goals simp only []
  all_goals first
    | rfl
    | (split <;> rfl)

lemma alistGet_alistRemove (l : List (Nat × Voice)) (k : Nat) :
    alistGet (alistRemove l k) k = none := by
  have h : (alistRemove l k).find? (fun p => p.1 == k) = none := by
    rw [List.find?_eq_none]
    intro x hx
    rcases List.mem_filter.mp hx with ⟨_, h2⟩
    simpa using h2
  simp [alistGet, h]

/-! Concrete runs, evaluated once and reused below. -/

lemma arp_run1 : playNote readyArpState 0 0 =
    ("C", arpS1, [AudioEvent.bassAttack 36 10, AudioEvent.attack 48 10]) := by
  simp [playNote, readyArpState, readyState, initState, isReady, releaseVoice,
    alistGet, alistSet, alistRemove, modesSet, buildChord_root48, bassOctave_zero,
    allVoiceNotes, getAllArpNotes, jsSort, jsDedup, getChordName, typeName,
    extName, NOTE_NAMES, arpS1]

lemma arp_run2 : playNote arpS1 1 1000 =
    ("C#", arpS2,
     [AudioEvent.bassRelease 1010, AudioEvent.bassAttack 37 1010]) := by
  simp [playNote, arpS1, readyArpState, readyState, initState, isReady,
    releaseVoice, alistGet, alistSet, alistRemove, modesSet, buildChord_root49,
    bassOctave_zero, allVoiceNotes, getAllArpNotes, jsSort, jsDedup,
    getChordName, typeName, extName, NOTE_NAMES, updateArpSequence,
    buildArpTransition, nearestTarget, midiDist, arpS2]
  norm_num

lemma arp_retrig_run : playNote arpS1 0 1000 =
    ("C", arpRetrigState,
     [AudioEvent.release 48 1000, AudioEvent.release 52 1000,
      AudioEvent.release 55 1000, AudioEvent.bassRelease 1010,
      AudioEvent.bassAttack 36 1010, AudioEvent.attack 48 1010]) := by
  simp [playNote, arpS1, readyArpState, readyState, initState, isReady,
    releaseVoice, alistGet, alistSet, alistRemove, modesSet, buildChord_root48,
    bassOctave_zero, allVoiceNotes, getAllArpNotes, jsSort, jsDedup,
    getChordName, typeName, extName, NOTE_NAMES, updateArpSequence,
    arpRetrigState]
  norm_num

lemma leak_run : setPerformanceMode arpRetrigState Mode.poly 2000 =
    (leakState, [AudioEvent.release 48 2000]) := by
  simp [setPerformanceMode, stopArp, arpRetrigState, arpS1, readyArpState,
    readyState, initState, leakState]

lemma strum_run : PartThree.playNote readyStrumState 0 0 =
    ("C", strumS1,
     [AudioEvent.releaseAllSynth 0, AudioEvent.bassAttack 36 0,
      AudioEvent.attack 48 0]) := by
  simp [PartThree.playNote, readyStrumState, readyState, initState, isReady,
    alistGet, alistSet, alistRemove, modesSet, buildChord_root48,
    bassOctave_zero, allVoiceNotes, getChordName, typeName, extName,
    NOTE_NAMES, strumS1, List.enum, List.enumFrom]
  norm_num

/-! Facts about the nearest-note scan of buildArpTransition. -/

lemma nearestFold_mem (cur : Nat) (xs : List Nat) (b : Nat) :
    xs.foldl (fun best n => if midiDist n cur < midiDist best cur then n else best) b
      ∈ b :: xs := by
  induction xs generalizing b with
  | nil => simp
  | cons n xs ih =>
    simp only [List.foldl_cons]
    by_cases hc : midiDist n cur < midiDist b cur
    · rw [if_pos hc]
      rcases List.mem_cons.mp (ih n) with h | h
      · rw [h]
        exact List.mem_cons_of_mem _ (List.mem_cons_self _ _)
      · exact List.mem_cons_of_mem _ (List.mem_cons_of_mem _ h)
    · rw [if_neg hc]
      rcases List.mem_cons.mp (ih b) with h | h
      · rw [h]
        exact List.mem_cons_self _ _
      · exact List.mem_cons_of_mem _ (List.mem_cons_of_mem _ h)

lemma nearestFold_le (cur : Nat) (xs : List Nat) (b : Nat) :
    midiDist (xs.foldl (fun best n => if midiDist n cur < midiDist best cur then n else best) b) cur
      ≤ midiDist b cur
    ∧ ∀ y ∈ xs,
      midiDist (xs.foldl (fun best n => if midiDist n cur < midiDist best cur then n else best) b) cur
        ≤ midiDist y cur := by
  induction xs generalizing b with
  | nil => exact ⟨le_refl _, by simp⟩
  | cons n xs ih =>
    have hb := ih (if midiDist n cur < midiDist b cur then n else b)
    simp only [List.foldl_cons]
    constructor
    · refine le_trans hb.1 ?_
      by_cases hc : midiDist n cur < midiDist b cur
      · rw [if_pos hc]
        exact le_of_lt hc
      · rw [if_neg hc]
    · intro y hy
      rcases List.mem_cons.mp hy with rfl | hy
      · refine le_trans hb.1 ?_
        by_cases hc : midiDist y cur < midiDist b cur
        · rw [if_pos hc]
        · rw [if_neg hc]
          exact le_of_not_lt hc
      · exact hb.2 y hy

lemma midiDist_self (a : Nat) : midiDist a a = 0 := by
  simp [midiDist]

lemma midiDist_eq_zero {a b : Nat} (h : midiDist a b = 0) : a = b := by
  unfold midiDist at h
  rcases le_total a b with hab | hab
  · rw [max_eq_right hab, min_eq_left hab] at h
    omega
  · rw [max_eq_left hab, min_eq_right hab] at h
    omega

lemma nearestTarget_self {cur : Nat} {seq : List Nat} (h : cur ∈ seq) :
    nearestTarget cur seq = cur := by
  cases seq with
  | nil => cases h
  | cons x xs =>
    have hle := nearestFold_le cur xs x
    have hz : midiDist (nearestTarget cur (x :: xs)) cur = 0 := by
      have h0 : midiDist (nearestTarget cur (x :: xs)) cur ≤ midiDist cur cur := by
        rcases List.mem_cons.mp h with rfl | h
        · exact hle.1
        · exact hle.2 cur h
      rw [midiDist_self] at h0
      omega
    exact midiDist_eq_zero hz

/-! Facts about the input-claim stores. -/

lemma lookupP_mem {l : List (Nat × Nat)} {pid cur : Nat}
    (h : lookupP l pid = some cur) : (pid, cur) ∈ l := by
  unfold lookupP at h
  cases hf : l.find? (fun p => p.1 == pid) with
  | none => rw [hf] at h; simp at h
  | some p =>
    rw [hf] at h
    simp only [Option.map_some'] at h
    rw [Option.some_inj] at h
    have hm := List.mem_of_find?_eq_some hf
    have hp := List.find?_some hf
    simp only [beq_iff_eq] at hp
    have hq : p = (pid, cur) := Prod.ext hp h
    rwa [hq] at hm

lemma removeP_eq_self {l : List (Nat × Nat)} {pid : Nat}
    (h : lookupP l pid = none) : removeP l pid = l := by
  unfold lookupP at h
  have hf : l.find? (fun p => p.1 == pid) = none := by
    cases hf : l.find? (fun p => p.1 == pid)
    · rfl
    · rw [hf] at h; simp at h
  rw [List.find?_eq_none] at hf
  unfold removeP
  rw [List.filter_eq_self]
  intro a ha
  simpa using hf a ha

lemma lookupP_unique {l : List (Nat × Nat)} {pid cur : Nat}
    (hnd : (l.map Prod.fst).Nodup) (h : lookupP l pid = some cur) :
    ∀ q ∈ l, q.1 = pid → q.2 = cur := by
  intro q hq hq1
  have hpc := lookupP_mem h
  have heq : q = (pid, cur) := by
    refine List.inj_on_of_nodup_map hnd hq hpc ?_
    simp [hq1]
  rw [heq]

lemma heldByAnySource_iff (st : InputState) (k : Nat) :
    heldByAnySource st k = true
      ↔ ((∃ q ∈ st.pointers, q.2 = k) ∨ k ∈ st.kbd) := by
  simp [heldByAnySource, List.any_eq_true]

/-! Claim theorems. -/

/-- C1, counterexample: with keys 0 and 4 held and their chords sharing
pitch 52, releaseKey 0 issues a release call for 52 even though key 4 is
still held and its entry still contains 52 — refuting the claim that
only pitches absent from every other currently-held entry are stopped. -/
theorem releaseKey_shared_pitch_cex :
    AudioEvent.release 52 0 ∈ (releaseKey sharedPitchState 0 0).2
    ∧ alistGet (releaseKey sharedPitchState 0 0).1.activeVoices 4
        = some ⟨[52, 56, 59], 40⟩
    ∧ (52 : Nat) ∈ ([52, 56, 59] : List Nat) := by
  refine ⟨?_, ?_, ?_⟩ <;> decide

/-- C1, amended: releasing a held key's voice (releaseVoice, to which
releaseKey delegates) stops every pitch of that key's entry — including
pitches also present in other currently-held keys' entries — and removes
the entry; the release list does not depend on the other held voices. -/
theorem releaseVoice_releases_whole_entry (s : EngineState) (k : Nat)
    (now : ℚ) (voice : Voice) (h : alistGet s.activeVoices k = some voice) :
    (releaseVoice s k now).2
      = voice.notes.map (fun n => AudioEvent.release n now)
    ∧ alistGet (releaseVoice s k now).1.activeVoices k = none := by
  constructor
  · simp [releaseVoice, h]
  · simp only [releaseVoice, h]
    split
    · rw [updateArpSequence_activeVoices]
      exact alistGet_alistRemove _ _
    · exact alistGet_alistRemove _ _

/-- Witness for the amended C1 theorem at a concrete shared-pitch state. -/
theorem releaseVoice_releases_whole_entry_w :
    alistGet sharedPitchState.activeVoices 0 = some ⟨[48, 52, 55], 36⟩
    ∧ ((releaseVoice sharedPitchState 0 0).2
        = ([48, 52, 55] : List Nat).map (fun n => AudioEvent.release n 0)
      ∧ alistGet (releaseVoice sharedPitchState 0 0).1.activeVoices 0 = none) :=
  ⟨by decide,
   releaseVoice_releases_whole_entry sharedPitchState 0 0 ⟨[48, 52, 55], 36⟩
     (by decide)⟩

/-- C2, counterexample: with extensions inserted in the order 9-then-6
and voicingAmount 1, buildChord differs from the sorted-then-voiced list
the claim describes (with or without a final re-sort), and also differs
from the same call with the opposite insertion order — refuting both the
voicing-on-the-sorted-list rule and insertion-order independence. -/
theorem buildChord_voicing_cex :
    buildChord ChordType.maj [Exten.nine, Exten.six] 1 60
      ≠ buildChordSpec ChordType.maj [Exten.nine, Exten.six] 1 60
    ∧ buildChord ChordType.maj [Exten.nine, Exten.six] 1 60
      ≠ jsSort (buildChordSpec ChordType.maj [Exten.nine, Exten.six] 1 60)
    ∧ buildChord ChordType.maj [Exten.nine, Exten.six] 1 60
      ≠ buildChord ChordType.maj [Exten.six, Exten.nine] 1 60 := by
  refine ⟨?_, ?_, ?_⟩ <;>
    · simp only [buildChord, buildChordSpec, voicingCount_one]
      decide

/-- C2, amended: buildChord returns the base intervals plus one fixed
offset per active extension, the voicing bumps being applied to the
pre-sort interval list (base-table order followed by extension insertion
order) at indices i mod length, and the result is then sorted ascending;
hence the result is sorted, is a permutation of the voiced unsorted
list, has 3 + |extensions| entries, and for voicingAmount 1.0 on the
3-note maj chord at root 60 the originally-lowest note is raised twice
(+24), yielding [76, 79, 84]. -/
theorem buildChord_characterization (ct : ChordType) (exts : List Exten)
    (v : ℚ) (root : Nat) :
    (buildChord ct exts v root).Sorted (· ≤ ·)
    ∧ (buildChord ct exts v root).Perm
        (applyVoicing
          ((CHORD_INTERVALS ct ++ exts.map EXTENSION_INTERVALS).map
            (fun i => root + i))
          (voicingCount v))
    ∧ (buildChord ct exts v root).length = 3 + exts.length
    ∧ buildChord ChordType.maj [] 1 60 = [76, 79, 84] := by
  refine ⟨jsSort_sorted _, jsSort_perm _, ?_, ?_⟩
  · have hp := (jsSort_perm (applyVoicing
      ((CHORD_INTERVALS ct ++ exts.map EXTENSION_INTERVALS).map
        (fun i => root + i)) (voicingCount v))).length_eq
    simp only [buildChord]
    rw [hp, applyVoicing_length, List.length_map, List.length_append,
      CHORD_INTERVALS_length, List.length_map]
  · simp only [buildChord, voicingCount_one]
    decide

/-- C9: the displayed chord name equals root name, type suffix and
extension suffix exactly as the specification phrases it (for every
chord type, extension set and root), including the four instances the
specification lists. -/
theorem getChordName_spec_conformance :
    (∀ (ct : ChordType) (exts : List Exten) (r : Nat),
      getChordName ct exts r = chordNameSpec ct exts r)
    ∧ getChordName ChordType.maj [] 48 = "C"
    ∧ getChordName ChordType.min [Exten.m7] 60 = "Cm7"
    ∧ getChordName ChordType.maj [Exten.M7, Exten.nine] 60 = "Cmaj79"
    ∧ getChordName ChordType.sus [Exten.six] 60 = "Csus46" := by
  refine ⟨?_, by decide, by decide, by decide, by decide⟩
  intro ct exts r
  unfold getChordName chordNameSpec extName
  cases h7 : exts.contains Exten.M7 <;> cases hm : exts.contains Exten.m7 <;>
    cases h9 : exts.contains Exten.nine <;> cases h6 : exts.contains Exten.six <;>
      simp [h7, hm, h9, h6, String.append_assoc]

/-- C10: calling playNote while the engine is not ready returns the
empty string, triggers no tone-generator calls, and leaves the entire
engine state unchanged. -/
theorem playNote_not_ready_atomic (s : EngineState) (k : Nat) (now : ℚ)
    (h : isReady s = false) :
    playNote s k now = ("", s, []) := by
  simp [playNote, h]

/-- Witness for C10 at the freshly-constructed (uninitialized) engine. -/
theorem playNote_not_ready_atomic_w :
    isReady initState = false ∧ playNote initState 0 0 = ("", initState, []) :=
  ⟨rfl, playNote_not_ready_atomic initState 0 0 rfl⟩

/-- C5, counterexample: in the section-8 scenario — arp started with key
0 held (C major), then key 1 pressed with a disjoint chord — the
recomputed activeSequence has the union size 6, but the transition queue
is empty, not non-empty: the currently-sounding pitch 48 is itself in
the new sequence, so the nearest target equals it. -/
theorem arp_transition_scenario_cex :
    (playNote readyArpState 0 0).2.1 = arpS1
    ∧ (playNote arpS1 1 1000).2.1 = arpS2
    ∧ arpS2.arpSequence.length = 6
    ∧ arpS2.arpTransitionQueue = []
    ∧ buildArpTransition 48 arpS2.arpSequence = [] := by
  exact ⟨by rw [arp_run1], by rw [arp_run2], rfl, rfl, by decide⟩

/-- C5, amended: the transition queue is built exactly as the claim
describes (ascending walk up to a target above, descending walk down to
a target below, empty when equal) and is therefore always strictly
monotonic; but whenever the currently-sounding pitch is a member of the
new sequence — as in the two-disjoint-chords scenario of section 8,
where the old chord is part of the union — the nearest target is the
current pitch itself and the queue is empty. -/
theorem buildArpTransition_spec (cur : Nat) (seq : List Nat)
    (hs : seq.Pairwise (· < ·)) :
    (cur ∈ seq → buildArpTransition cur seq = [])
    ∧ ((buildArpTransition cur seq).Pairwise (· < ·)
       ∨ (buildArpTransition cur seq).Pairwise (· > ·)) := by
  constructor
  · intro h
    cases seq with
    | nil => rfl
    | cons x xs =>
      simp only [buildArpTransition, nearestTarget_self h]
      simp
  · cases seq with
    | nil => simp [buildArpTransition]
    | cons x xs =>
      simp only [buildArpTransition]
      by_cases h1 : cur < nearestTarget cur (x :: xs)
      · rw [if_pos h1]
        left
        exact hs.sublist (List.filter_sublist _)
      · rw [if_neg h1]
        by_cases h2 : nearestTarget cur (x :: xs) < cur
        · rw [if_pos h2]
          right
          rw [List.pairwise_reverse]
          exact hs.sublist (List.filter_sublist _)
        · rw [if_neg h2]
          left
          exact List.Pairwise.nil

/-- Witness for the amended C5 theorem on the section-8 union sequence. -/
theorem buildArpTransition_spec_w :
    ([48, 49, 52, 53, 55, 56] : List Nat).Pairwise (· < ·)
    ∧ buildArpTransition 48 [48, 49, 52, 53, 55, 56] = []
    ∧ ((buildArpTransition 48 [48, 49, 52, 53, 55, 56]).Pairwise (· < ·)
       ∨ (buildArpTransition 48 [48, 49, 52, 53, 55, 56]).Pairwise (· > ·)) := by
  have h := buildArpTransition_spec 48 [48, 49, 52, 53, 55, 56] (by decide)
  exact ⟨by decide, h.1 (by decide), h.2⟩

/-- C6, code bug: retriggering the only held arp key (reachable by, for
example, tapping with a pointer a key already held through the physical
keyboard, since handleNoteOn always calls playNote) makes playNote take
the first-key path again and create a second interval while overwriting
the stored handle of the first; setPerformanceMode then clears only the
stored handle, so the leaked first interval is still live afterwards and
a tick step remains enabled — contradicting the claim that no further
arp ticks fire after cancellation.  The sounding note itself does
receive its release (second-to-last conjunct). -/
theorem arp_cancel_leak_bug :
    (playNote readyArpState 0 0).2.1 = arpS1
    ∧ (playNote arpS1 0 1000).2.1 = arpRetrigState
    ∧ setPerformanceMode arpRetrigState Mode.poly 2000
        = (leakState, [AudioEvent.release 48 2000])
    ∧ leakState.arpInterval = none
    ∧ leakState.liveIntervals = [⟨0, arpIntervalMs 120, arpIntervalMs 120⟩]
    ∧ TickStep leakState
        (fireTimer leakState ⟨0, arpIntervalMs 120, arpIntervalMs 120⟩).1
        (fireTimer leakState ⟨0, arpIntervalMs 120, arpIntervalMs 120⟩).2 := by
  refine ⟨by rw [arp_run1], by rw [arp_retrig_run], leak_run, rfl, rfl, ?_⟩
  exact TickStep.fire leakState ⟨0, arpIntervalMs 120, arpIntervalMs 120⟩
    (List.mem_cons_self _ _)

lemma arpTick_liveIntervals (s : EngineState) (t : ℚ) :
    (arpTick s t).1.liveIntervals = s.liveIntervals := by
  unfold arpTick
  repeat' split
  all_goals rfl

/-- C4: in arp mode, (a) pressing the first key of a previously empty
hold-set sounds the head of the new sequence immediately (at the call
time plus the 10 ms audio offset, not after a tick) and arms an interval
timer with period 60000 / bpm / 2; (b) a tick with a non-empty
transition queue first releases the sounding pitch, then pops and sounds
the queue head; (c) a tick with an empty queue first releases the
sounding pitch, then advances currentIndex to (currentIndex + 1) mod
length and sounds that sequence entry; (d) firing an interval timer
re-arms the same timer exactly one period later. -/
theorem arp_scheduler_spec
    (s : EngineState) (k : Nat) (t : ℚ) (n0 : Nat) (rest0 : List Nat)
    (hmode : s.performanceMode = Mode.arp) (hready : isReady s = true)
    (hempty : s.activeVoices = [])
    (hseq : getAllArpNotes [(k,
        ⟨buildChord s.chordType s.extensions s.chordVoicing (48 + k + s.key),
         (bassOctave s.bassVoicing + 1) * 12 + (48 + k + s.key) % 12⟩)]
      = n0 :: rest0)
    (s2 : EngineState) (t2 : ℚ) (n2 : Nat) (q2 : List Nat)
    (hinit2 : s2.initialized = true) (hq2 : s2.arpTransitionQueue = n2 :: q2)
    (s3 : EngineState) (t3 : ℚ)
    (hinit3 : s3.initialized = true) (hq3 : s3.arpTransitionQueue = [])
    (hseq3 : s3.arpSequence ≠ [])
    (s4 : EngineState) (tm : Timer) (hmem : tm ∈ s4.liveIntervals) :
    (AudioEvent.attack n0 (t + 10) ∈ (playNote s k t).2.2
      ∧ (playNote s k t).2.1.arpSequence = n0 :: rest0
      ∧ (playNote s k t).2.1.currentArpNote = some n0
      ∧ (playNote s k t).2.1.arpIndex = 0
      ∧ (playNote s k t).2.1.liveIntervals
          = s.liveIntervals
            ++ [⟨s.nextTimerId, t + arpIntervalMs s.bpm, arpIntervalMs s.bpm⟩]
      ∧ (playNote s k t).2.1.arpInterval = some s.nextTimerId)
    ∧ arpTick s2 t2
        = ({ s2 with currentArpNote := some n2, arpTransitionQueue := q2 },
           (match s2.currentArpNote with
            | some c => [AudioEvent.release c (t2 + 10)]
            | none => []) ++ [AudioEvent.attack n2 (t2 + 10)])
    ∧ arpTick s3 t3
        = ({ s3 with
             arpIndex := (s3.arpIndex + 1) % s3.arpSequence.length,
             currentArpNote :=
               some (s3.arpSequence.getD
                 ((s3.arpIndex + 1) % s3.arpSequence.length) 0) },
           (match s3.currentArpNote with
            | some c => [AudioEvent.release c (t3 + 10)]
            | none => []) ++
           [AudioEvent.attack
             (s3.arpSequence.getD ((s3.arpIndex + 1) % s3.arpSequence.length) 0)
             (t3 + 10)])
    ∧ { tm with nextAt := tm.nextAt + tm.period }
        ∈ (fireTimer s4 tm).1.liveIntervals := by
  have hrel : releaseVoice s k t = (s, []) := by
    unfold releaseVoice
    rw [hempty]
    rfl
  refine ⟨?_, ?_, ?_, ?_⟩
  · simp only [playNote, hready, Bool.not_true, Bool.false_eq_true, if_false,
      hrel, hempty, hmode, alistSet, alistRemove, List.filter_nil,
      List.nil_append, List.length_cons, List.length_nil]
    simp only [hseq]
    simp [hmode]
  · simp only [arpTick, hinit2, Bool.not_true, Bool.false_eq_true, if_false, hq2]
  · simp only [arpTick, hinit3, Bool.not_true, Bool.false_eq_true, if_false, hq3]
    rw [if_pos hseq3]
  · have hmap := List.mem_map_of_mem
      (fun u => if u.id = tm.id then { u with nextAt := u.nextAt + u.period } else u)
      hmem
    simp only [fireTimer, arpTick_liveIntervals]
    simpa using hmap

/-- Witness for C4: the first-key behavior at the ready arp engine, a
queue-priority tick, a round-robin tick, and a timer re-arm, all at
concrete inputs. -/
theorem arp_scheduler_spec_w :
    isReady readyArpState = true
    ∧ readyArpState.performanceMode = Mode.arp
    ∧ readyArpState.activeVoices = []
    ∧ getAllArpNotes [(0,
        ⟨buildChord readyArpState.chordType readyArpState.extensions
           readyArpState.chordVoicing (48 + 0 + readyArpState.key),
         (bassOctave readyArpState.bassVoicing + 1) * 12
           + (48 + 0 + readyArpState.key) % 12⟩)] = 48 :: [52, 55]
    ∧ AudioEvent.attack 48 ((0:ℚ) + 10) ∈ (playNote readyArpState 0 0).2.2
    ∧ (playNote readyArpState 0 0).2.1.arpSequence = 48 :: [52, 55]
    ∧ (playNote readyArpState 0 0).2.1.currentArpNote = some 48
    ∧ (playNote readyArpState 0 0).2.1.liveIntervals
        = readyArpState.liveIntervals
          ++ [⟨readyArpState.nextTimerId, 0 + arpIntervalMs readyArpState.bpm,
               arpIntervalMs readyArpState.bpm⟩]
    ∧ arpTick { readyState with currentArpNote := some 60,
                                arpTransitionQueue := [59, 57] } 0
        = ({ readyState with currentArpNote := some 59,
                             arpTransitionQueue := [57] },
           [AudioEvent.release 60 ((0:ℚ) + 10),
            AudioEvent.attack 59 ((0:ℚ) + 10)])
    ∧ arpTick arpS1 0
        = ({ arpS1 with
             arpIndex := (arpS1.arpIndex + 1) % arpS1.arpSequence.length,
             currentArpNote :=
               some (arpS1.arpSequence.getD
                 ((arpS1.arpIndex + 1) % arpS1.arpSequence.length) 0) },
           [AudioEvent.release 48 ((0:ℚ) + 10),
            AudioEvent.attack
              (arpS1.arpSequence.getD
                ((arpS1.arpIndex + 1) % arpS1.arpSequence.length) 0)
              ((0:ℚ) + 10)])
    ∧ (⟨0, arpIntervalMs 120 + arpIntervalMs 120, arpIntervalMs 120⟩ : Timer)
        ∈ (fireTimer arpS1 ⟨0, arpIntervalMs 120, arpIntervalMs 120⟩).1.liveIntervals := by
  have hseq : getAllArpNotes [(0,
      ⟨buildChord readyArpState.chordType readyArpState.extensions
         readyArpState.chordVoicing (48 + 0 + readyArpState.key),
       (bassOctave readyArpState.bassVoicing + 1) * 12
         + (48 + 0 + readyArpState.key) % 12⟩)] = 48 :: [52, 55] := by
    simp only [show readyArpState.chordType = ChordType.maj from rfl,
      show readyArpState.extensions = ([] : List Exten) from rfl,
      show readyArpState.chordVoicing = (0:ℚ) from rfl,
      show readyArpState.key = 0 from rfl,
      show readyArpState.bassVoicing = (0:ℚ) from rfl,
      show 48 + 0 + 0 = 48 from rfl, buildChord_root48, bassOctave_zero]
    decide
  have h := arp_scheduler_spec readyArpState 0 0 48 [52, 55] rfl rfl rfl hseq
    { readyState with currentArpNote := some 60, arpTransitionQueue := [59, 57] }
    0 59 [57] rfl rfl
    arpS1 0 rfl rfl (by decide)
    arpS1 ⟨0, arpIntervalMs 120, arpIntervalMs 120⟩ (List.mem_cons_self _ _)
  exact ⟨rfl, rfl, rfl, hseq, h.1.1, h.1.2.1, h.1.2.2.1, h.1.2.2.2.2.1,
    h.2.1, h.2.2.1, h.2.2.2⟩

/-! Facts about claim-store updates, used by the input-arbitration
claims. -/

lemma bool_eq_of_iff {a b : Bool} (h : a = true ↔ b = true) : a = b := by
  cases a <;> cases b <;> simp_all

lemma held_of_lookupP {st : InputState} {pid cur : Nat}
    (hlk : lookupP st.pointers pid = some cur) :
    heldByAnySource st cur = true := by
  rw [heldByAnySource_iff]
  exact Or.inl ⟨(pid, cur), lookupP_mem hlk, rfl⟩

lemma held_of_kbd {st : InputState} {k0 : Nat} (h : st.kbd.contains k0 = true) :
    heldByAnySource st k0 = true := by
  rw [heldByAnySource_iff]
  exact Or.inr (by simpa using h)

lemma held_append_right (st : InputState) (k pid n : Nat)
    (h : heldByAnySource st k = true) :
    heldByAnySource { st with pointers := st.pointers ++ [(pid, n)] } k = true := by
  rw [heldByAnySource_iff] at h ⊢
  rcases h with ⟨q, hq, hq2⟩ | h
  · exact Or.inl ⟨q, List.mem_append_left _ hq, hq2⟩
  · exact Or.inr h

lemma held_kbd_append (st : InputState) (k k0 : Nat)
    (h : heldByAnySource st k = true) :
    heldByAnySource { st with kbd := st.kbd ++ [k0] } k = true := by
  rw [heldByAnySource_iff] at h ⊢
  rcases h with hp | h
  · exact Or.inl hp
  · exact Or.inr (List.mem_append_left _ h)

lemma held_removeP_other {st : InputState} {pid cur k : Nat}
    (hnd : (st.pointers.map Prod.fst).Nodup)
    (hlk : lookupP st.pointers pid = some cur) (hne : k ≠ cur) :
    heldByAnySource { st with pointers := removeP st.pointers pid } k
      = heldByAnySource st k := by
  apply bool_eq_of_iff
  rw [heldByAnySource_iff, heldByAnySource_iff]
  constructor
  · rintro (⟨q, hq, hq2⟩ | h)
    · exact Or.inl ⟨q, List.mem_of_mem_filter hq, hq2⟩
    · exact Or.inr h
  · rintro (⟨q, hq, hq2⟩ | h)
    · refine Or.inl ⟨q, List.mem_filter.mpr ⟨hq, ?_⟩, hq2⟩
      have hq1 : q.1 ≠ pid := by
        intro hq1
        have hcur := lookupP_unique hnd hlk q hq hq1
        rw [hq2] at hcur
        exact hne hcur
      simpa using hq1
    · exact Or.inr h

lemma held_setP_mono {st : InputState} {pid cur : Nat} (n : Nat)
    (hnd : (st.pointers.map Prod.fst).Nodup)
    (hlk : lookupP st.pointers pid = some cur) {j : Nat} (hj : j ≠ cur)
    (h : heldByAnySource st j = true) :
    heldByAnySource { st with pointers := setP st.pointers pid n } j = true := by
  have h1 : heldByAnySource { st with pointers := removeP st.pointers pid } j
      = true := by
    rw [held_removeP_other hnd hlk hj]
    exact h
  exact held_append_right { st with pointers := removeP st.pointers pid } j pid n h1

lemma held_kbdFilter_other {st : InputState} {k0 k : Nat} (hne : k ≠ k0) :
    heldByAnySource { st with kbd := st.kbd.filter (fun j => j != k0) } k
      = heldByAnySource st k := by
  apply bool_eq_of_iff
  rw [heldByAnySource_iff, heldByAnySource_iff]
  constructor
  · rintro (hp | h)
    · exact Or.inl hp
    · exact Or.inr (List.mem_of_mem_filter h)
  · rintro (hp | h)
    · exact Or.inl hp
    · exact Or.inr (List.mem_filter.mpr ⟨h, by simpa using hne⟩)

lemma noop_case (k : Nat) (b : Bool) :
    (KeyEvent.noteOff k ∈ ([] : List KeyEvent)) ↔ (b = true ∧ b = false) := by
  constructor
  · intro h
    cases h
  · rintro ⟨h1, h2⟩
    rw [h1] at h2
    cases h2

lemma attack_case (k n : Nat) (st st1 : InputState)
    (himp : heldByAnySource st k = true → heldByAnySource st1 k = true) :
    (KeyEvent.noteOff k ∈ [KeyEvent.noteOn n])
      ↔ (heldByAnySource st k = true ∧ heldByAnySource st1 k = false) := by
  constructor
  · intro h
    simp at h
  · rintro ⟨h1, h2⟩
    rw [himp h1] at h2
    cases h2

lemma release_case (k x : Nat) (st st1 : InputState)
    (hheld : heldByAnySource st x = true)
    (himp : ∀ j, j ≠ x → heldByAnySource st j = true →
      heldByAnySource st1 j = true) :
    (KeyEvent.noteOff k
        ∈ (if heldByAnySource st1 x then [] else [KeyEvent.noteOff x]))
      ↔ (heldByAnySource st k = true ∧ heldByAnySource st1 k = false) := by
  by_cases hk : k = x
  · subst hk
    by_cases hx : heldByAnySource st1 k = true
    · rw [if_pos hx]
      constructor
      · intro h
        cases h
      · rintro ⟨_, h2⟩
        rw [hx] at h2
        cases h2
    · have hx' : heldByAnySource st1 k = false := Bool.eq_false_iff.mpr hx
      rw [if_neg hx]
      constructor
      · intro _
        exact ⟨hheld, hx'⟩
      · intro _
        exact List.mem_singleton.mpr rfl
  · constructor
    · intro h
      split at h
      · cases h
      · rw [List.mem_singleton] at h
        cases h
        exact absurd rfl hk
    · rintro ⟨h1, h2⟩
      rw [himp k hk h1] at h2
      cases h2

/-- C3: for every key, an onNoteOff is fired by an input event exactly
when the key was held by some input source before the event and no
source claims it afterwards; in particular a key claimed by both a
pointer and the physical keyboard is released only when the second of
the two sources lets go, in either order.  Hypotheses: pointer-down
events only arrive for pointers that are not already down (a browser
guarantee), and the pointer map holds at most one entry per pointer id
(which the handlers preserve). -/
theorem noteOff_iff_no_claims (ready : Bool) (st : InputState) (e : InEvent)
    (k : Nat) (hwf : eventWF st e)
    (hnd : (st.pointers.map Prod.fst).Nodup) :
    KeyEvent.noteOff k ∈ (inputStep ready st e).2
      ↔ (heldByAnySource st k = true
         ∧ heldByAnySource (inputStep ready st e).1 k = false) := by
  cases e with
  | pointerDown pid pos =>
    have hwf' : lookupP st.pointers pid = none := hwf
    cases hr : ready with
    | false =>
      simp only [inputStep, hr, Bool.not_false, if_pos]
      exact noop_case k _
    | true =>
      cases pos with
      | none =>
        simp only [inputStep, hr, Bool.not_true, Bool.false_eq_true, if_false]
        exact noop_case k _
      | some n =>
        simp only [inputStep, hr, Bool.not_true, Bool.false_eq_true, if_false]
        refine attack_case k n st _ ?_
        intro h
        have h2 := held_append_right st k pid n h
        simpa [setP, removeP_eq_self hwf'] using h2
  | pointerMove pid pos =>
    cases hlk : lookupP st.pointers pid with
    | none =>
      simp only [inputStep, hlk]
      exact noop_case k _
    | some cur =>
      by_cases hpc : pos = some cur
      · simp only [inputStep, hlk, if_pos hpc]
        exact noop_case k _
      · cases pos with
        | none =>
          simp only [inputStep, hlk, if_neg hpc, List.nil_append]
          refine release_case k cur st _ (held_of_lookupP hlk) ?_
          intro j hj h
          rw [held_removeP_other hnd hlk hj]
          exact h
        | some n =>
          have hne : n ≠ cur := by
            intro h
            exact hpc (by rw [h])
          simp only [inputStep, hlk, if_neg hpc, List.singleton_append,
            List.mem_cons]
          have hiff := release_case k cur st
            { st with pointers := setP st.pointers pid n }
            (held_of_lookupP hlk)
            (fun j hj h => held_setP_mono n hnd hlk hj h)
          constructor
          · rintro (h | h)
            · cases h
            · exact hiff.mp h
          · intro h
            exact Or.inr (hiff.mpr h)
  | pointerUp pid =>
    cases hlk : lookupP st.pointers pid with
    | none =>
      simp only [inputStep, hlk]
      exact noop_case k _
    | some cur =>
      simp only [inputStep, hlk]
      refine release_case k cur st _ (held_of_lookupP hlk) ?_
      intro j hj h
      rw [held_removeP_other hnd hlk hj]
      exact h
  | keyDown k0 =>
    cases hr : ready with
    | false =>
      simp only [inputStep, hr, Bool.not_false, if_pos]
      exact noop_case k _
    | true =>
      cases hc : st.kbd.contains k0 with
      | true =>
        simp only [inputStep, hr, Bool.not_true, Bool.false_eq_true, if_false,
          hc, if_pos]
        exact noop_case k _
      | false =>
        simp only [inputStep, hr, Bool.not_true, Bool.false_eq_true, if_false,
          hc]
        exact attack_case k k0 st _ (held_kbd_append st k k0)
  | keyUp k0 =>
    cases hc : st.kbd.contains k0 with
    | false =>
      simp only [inputStep, hc, Bool.false_eq_true, if_false]
      exact noop_case k _
    | true =>
      simp only [inputStep, hc, if_pos]
      refine release_case k k0 st _ (held_of_kbd hc) ?_
      intro j hj h
      rw [held_kbdFilter_other hj]
      exact h

/-- Witness for C3: key 5 is claimed by both pointer 1 and the physical
keyboard; the keyboard keyup does not fire onNoteOff (the pointer still
claims it), and from the remaining single-claim state the pointer up
does. -/
theorem noteOff_iff_no_claims_w :
    ((KeyEvent.noteOff 5
        ∈ (inputStep true ⟨[(1, 5)], [5]⟩ (InEvent.keyUp 5)).2)
      ↔ (heldByAnySource ⟨[(1, 5)], [5]⟩ 5 = true
         ∧ heldByAnySource (inputStep true ⟨[(1, 5)], [5]⟩ (InEvent.keyUp 5)).1 5
             = false))
    ∧ ((KeyEvent.noteOff 5
        ∈ (inputStep true ⟨[(1, 5)], []⟩ (InEvent.pointerUp 1)).2)
      ↔ (heldByAnySource ⟨[(1, 5)], []⟩ 5 = true
         ∧ heldByAnySource (inputStep true ⟨[(1, 5)], []⟩ (InEvent.pointerUp 1)).1 5
             = false)) :=
  ⟨noteOff_iff_no_claims true ⟨[(1, 5)], [5]⟩ (InEvent.keyUp 5) 5
      (by trivial) (by decide),
   noteOff_iff_no_claims true ⟨[(1, 5)], []⟩ (InEvent.pointerUp 1) 5
      (by trivial) (by decide)⟩

/-- C8: when a tracked pointer slides onto a different key, the handler
emits the new key's onNoteOn first and only afterwards (and only if no
other source claims it) the old key's onNoteOff, and the state in which
the release decision is made already contains the new key's claim. -/
theorem slide_attack_before_release (ready : Bool) (st : InputState)
    (pid n cur : Nat) (hlk : lookupP st.pointers pid = some cur)
    (hne : n ≠ cur) :
    (inputStep ready st (InEvent.pointerMove pid (some n))).2
      = KeyEvent.noteOn n ::
        (if heldByAnySource { st with pointers := setP st.pointers pid n } cur
         then [] else [KeyEvent.noteOff cur])
    ∧ heldByAnySource { st with pointers := setP st.pointers pid n } n = true
    ∧ (inputStep ready st (InEvent.pointerMove pid (some n))).1
        = { st with pointers := setP st.pointers pid n } := by
  have hpc : (some n : Option Nat) ≠ some cur := by simpa using hne
  refine ⟨?_, ?_, ?_⟩
  · simp only [inputStep, hlk, if_neg hpc, List.singleton_append]
  · rw [heldByAnySource_iff]
    exact Or.inl ⟨(pid, n),
      List.mem_append_right _ (List.mem_singleton.mpr rfl), rfl⟩
  · simp only [inputStep, hlk, if_neg hpc]

/-- Witness for C8: pointer 7 slides from key 3 to key 5. -/
theorem slide_attack_before_release_w :
    lookupP ([(7, 3)] : List (Nat × Nat)) 7 = some 3
    ∧ ((inputStep true ⟨[(7, 3)], []⟩ (InEvent.pointerMove 7 (some 5))).2
        = KeyEvent.noteOn 5 ::
          (if heldByAnySource
              { InputState.mk [(7, 3)] [] with
                pointers := setP [(7, 3)] 7 5 } 3
           then [] else [KeyEvent.noteOff 3])
      ∧ heldByAnySource
          { InputState.mk [(7, 3)] [] with pointers := setP [(7, 3)] 7 5 } 5
        = true
      ∧ (inputStep true ⟨[(7, 3)], []⟩ (InEvent.pointerMove 7 (some 5))).1
          = { InputState.mk [(7, 3)] [] with pointers := setP [(7, 3)] 7 5 }) :=
  ⟨by decide,
   slide_attack_before_release true ⟨[(7, 3)], []⟩ 7 5 3 (by decide) (by decide)⟩

lemma stopArp_no_attack (s : EngineState) (now : ℚ) :
    (stopArp s now).2.any AudioEvent.isAttack = false := by
  unfold stopArp
  rcases hai : s.arpInterval with _ | tid <;>
    rcases hca : s.currentArpNote with _ | n <;>
      simp [hai, hca, AudioEvent.isAttack] <;>
        split <;> simp [AudioEvent.isAttack]

/-- C7: in the part_003 engine variant (the one with cancelable
staggered attacks), (a) a strum key-press on a 3-note chord attacks the
first note immediately at the call time and leaves exactly the second
and third notes pending at +50 ms and +100 ms, discarding every
previously pending staggered attack (retrigger cancellation); (b)
releasing the sole held key empties the pending list and emits no
attack; (c) a pending attack can only fire while its entry is still in
scheduledAttacks, so a cancelled attack never sounds. -/
theorem strum_stagger_cancel
    (s : EngineState) (k : Nat) (t : ℚ) (c0 c1 c2 : Nat)
    (hmode : s.performanceMode = Mode.strum) (hready : isReady s = true)
    (hchord : buildChord s.chordType s.extensions s.chordVoicing (48 + k + s.key)
      = [c0, c1, c2])
    (s2 : EngineState) (k2 : Nat) (t2 : ℚ) (v2 : Voice)
    (hinit2 : s2.initialized = true) (hsole : s2.activeVoices = [(k2, v2)])
    (s3 s3' : EngineState) (ev3 : List AudioEvent) (p3 : Nat) (d3 : ℚ)
    (hstep : PartThree.SchedStep s3 s3' ev3)
    (hev : AudioEvent.attack p3 d3 ∈ ev3) :
    ((PartThree.playNote s k t).2.1.scheduledAttacks
        = [(c1, t + 50), (c2, t + 100)]
      ∧ AudioEvent.attack c0 t ∈ (PartThree.playNote s k t).2.2)
    ∧ ((PartThree.releaseKey s2 k2 t2).1.scheduledAttacks = []
      ∧ (PartThree.releaseKey s2 k2 t2).2.any AudioEvent.isAttack = false)
    ∧ (p3, d3) ∈ s3.scheduledAttacks := by
  have hmode' : s.performanceMode ≠ Mode.arp := by
    rw [hmode]
    exact fun h => Mode.noConfusion h
  have hrv : releaseVoice s2 k2 t2 =
      ({ s2 with
         activeVoices := [],
         activeNotesModes :=
           s2.activeNotesModes.filter (fun p => !(v2.notes.contains p.1)),
         currentChordNotes := [] },
       v2.notes.map (fun n => AudioEvent.release n t2)) := by
    unfold releaseVoice
    rw [hsole]
    simp [alistGet, alistRemove, allVoiceNotes]
  refine ⟨⟨?_, ?_⟩, ⟨?_, ?_⟩, ?_⟩
  · simp only [PartThree.playNote, hready, Bool.not_true, Bool.false_eq_true,
      if_false, if_pos hmode', hmode, hchord]
    simp [hchord, List.enum, List.enumFrom]
    norm_num
  · simp only [PartThree.playNote, hready, Bool.not_true, Bool.false_eq_true,
      if_false, if_pos hmode', hmode, hchord]
    simp [hchord]
  · simp only [PartThree.releaseKey, hinit2, Bool.not_true, Bool.false_eq_true,
      if_false, hrv]
    simp [hsole, alistGet]
  · simp only [PartThree.releaseKey, hinit2, Bool.not_true, Bool.false_eq_true,
      if_false, hrv]
    simp [hsole, alistGet, stopArp_no_attack, AudioEvent.isAttack,
      List.any_map, Function.comp]
  · cases hstep with
    | fire e hmem =>
      rw [List.mem_singleton] at hev
      cases hev
      simpa using hmem

/-- Witness for C7: strum press of key 0 at t = 0 on the ready engine,
release of that sole key at t = 10 before the pending attacks fire, and
a fire step for one of the pending entries. -/
theorem strum_stagger_cancel_w :
    isReady readyStrumState = true
    ∧ buildChord readyStrumState.chordType readyStrumState.extensions
        readyStrumState.chordVoicing (48 + 0 + readyStrumState.key)
      = [48, 52, 55]
    ∧ strumS1.activeVoices = [(0, ⟨[48, 52, 55], 36⟩)]
    ∧ (((PartThree.playNote readyStrumState 0 0).2.1.scheduledAttacks
          = [(52, (0:ℚ) + 50), (55, (0:ℚ) + 100)]
        ∧ AudioEvent.attack 48 0 ∈ (PartThree.playNote readyStrumState 0 0).2.2)
      ∧ ((PartThree.releaseKey strumS1 0 10).1.scheduledAttacks = []
        ∧ (PartThree.releaseKey strumS1 0 10).2.any AudioEvent.isAttack = false)
      ∧ ((52:Nat), (50:ℚ)) ∈ strumS1.scheduledAttacks) := by
  have hchord : buildChord readyStrumState.chordType readyStrumState.extensions
      readyStrumState.chordVoicing (48 + 0 + readyStrumState.key)
      = [48, 52, 55] := by
    simp only [show readyStrumState.chordType = ChordType.maj from rfl,
      show readyStrumState.extensions = ([] : List Exten) from rfl,
      show readyStrumState.chordVoicing = (0:ℚ) from rfl,
      show readyStrumState.key = 0 from rfl,
      show 48 + 0 + 0 = 48 from rfl, buildChord_root48]
  exact ⟨rfl, hchord, rfl,
    strum_stagger_cancel readyStrumState 0 0 48 52 55 rfl rfl hchord
      strumS1 0 10 ⟨[48, 52, 55], 36⟩ rfl rfl
      strumS1 _ _ 52 50
      (PartThree.SchedStep.fire strumS1 (52, 50) (by decide)) (by decide)⟩

end Laelia
